import Mathlib

/-!
Verification development for the fixture-loading core of Flask-Fixtures
(`flask_fixtures/loaders.py`): the loader registry, extension-based
dispatch, and the JSON date/time coercion pass.

Modelling conventions:
* A Python loader class is a `Loader` record: its `__name__` and its
  `extensions` class attribute (`none` models a class without the
  attribute, `some exts` a class with `extensions = tuple(exts)`).
* A raised exception is modelled as an explicit error value
  (`LoadOutcome.error`, or the `Option String` error component returned
  by the registry operations).
* Dispatch (`load`) returns the list of logged warnings together with
  its outcome; `LoadOutcome.result cls filename` denotes the call
  `cls().load(filename)` whose value is returned unchanged.
-/

/-- Model of a Python loader class: its `__name__` and its `extensions`
class attribute (`none` when the class has no such attribute). -/
structure Loader where
  name : String
  extensions : Option (List String)
deriving DecidableEq, Repr

/-- The built-in JSON loader class (`JSONLoader`, extensions `.json`, `.js`). -/
def JSONLoader : Loader :=
  { name := "JSONLoader", extensions := some [".json", ".js"] }

/-- The built-in YAML loader class (`YAMLLoader`, extensions `.yaml`, `.yml`). -/
def YAMLLoader : Loader :=
  { name := "YAMLLoader", extensions := some [".yaml", ".yml"] }

/-! ### os.path.splitext

`load` computes the file extension with `os.path.splitext`.  That call is
standard-library code, modelled here faithfully after CPython
`posixpath.splitext` / `genericpath._splitext` (sep `/`, no altsep,
extsep `.`): find the last `/` and the last `.`; if the last `.` lies
after the last `/` and at least one character of the base name before
that dot is not itself a dot, the extension is the substring from the
dot on; otherwise it is empty.  `rfindIdx?` models `str.rfind`, with
`none` for CPython's `-1` sentinel. -/

/-- Index of the last occurrence of `c` (Python `str.rfind`; `none` models `-1`). -/
def rfindIdx? (c : Char) : List Char → Option Nat
  | [] => none
  | x :: xs =>
    match rfindIdx? c xs with
    | some i => some (i + 1)
    | none => if x = c then some 0 else none

/-- Second component of CPython `posixpath.splitext`, on the character list. -/
def splitextExt (cs : List Char) : List Char :=
  let sepIndex := rfindIdx? '/' cs
  match rfindIdx? '.' cs with
  | none => []
  | some dotIndex =>
    let fnStart : Nat :=
      match sepIndex with
      | none => 0
      | some s => s + 1
    if fnStart ≤ dotIndex then
      if ((cs.drop fnStart).take (dotIndex - fnStart)).any (fun ch => ch != '.') then
        cs.drop dotIndex
      else []
    else []

/-- The extension computed by `load` via `os.path.splitext(filename)`. -/
def fileExtension (filename : String) : String :=
  String.mk (splitextExt filename.toList)

/-! ### Dispatch (`load`, lines 119-134) -/

/-- Whether a loader class matches an extension: it has an `extensions`
attribute and one of its entries equals the extension (the inner
`for ext in cls.extensions: if extension == ext` loop). -/
def loaderMatches (cls : Loader) (extension : String) : Bool :=
  match cls.extensions with
  | none => false
  | some exts => exts.contains extension

/-- The warning logged for a loader class lacking an `extensions` attribute. -/
def warnMsg (cls : Loader) : String :=
  "The loader " ++ cls.name ++ " is missing extensions and will not be used."

/-- The message of the exception raised when no loader matches. -/
def errMsg (filename : String) : String :=
  "Could not load fixture " ++ filename ++ ". Unsupported file format."

/-- Outcome of dispatch: either the call `cls().load(filename)` of the
selected loader class, or the raised unsupported-format exception. -/
inductive LoadOutcome where
  | result (cls : Loader) (filename : String)
  | error (msg : String)
deriving DecidableEq, Repr

/-- The loop body of `load`: walk the loader classes in order, logging a
warning and skipping any class without an `extensions` attribute,
returning the first class whose extensions contain the computed
extension, and raising once the list is exhausted. -/
def loadAux (filename extension : String) : List Loader → List String × LoadOutcome
  | [] => ([], LoadOutcome.error (errMsg filename))
  | cls :: rest =>
    match cls.extensions with
    | none =>
      (warnMsg cls :: (loadAux filename extension rest).1,
       (loadAux filename extension rest).2)
    | some exts =>
      if exts.contains extension then ([], LoadOutcome.result cls filename)
      else loadAux filename extension rest

/-- Model of the dispatch facade `load(filename)` over a given list of
loader classes (the result of `_get_loaders_cls()`): returns the logged
warnings and the outcome. -/
def load (loaders : List Loader) (filename : String) : List String × LoadOutcome :=
  loadAux filename (fileExtension filename) loaders

/-- Interpretation of an outcome given the behaviour `impl` of each
loader class's `load` method: a matched class yields its own result,
the error case propagates. -/
def runOutcome {α : Type} (impl : Loader → String → α) :
    LoadOutcome → Except String α
  | LoadOutcome.result cls fn => Except.ok (impl cls fn)
  | LoadOutcome.error m => Except.error m

/-! ### Registry operations (`add`, `remove`, `_get_loaders_cls`, lines 86-116)

The process-wide list `_custom_loaders` is passed explicitly as `custom`.
An argument to `add`/`remove` is an arbitrary Python object, classified by
`_is_loader` (`inspect.isclass(obj) and issubclass(obj, FixtureLoader)`).
Each operation returns the list after the call together with the message
of the raised exception, if any (`none` = returned normally). -/

/-- An arbitrary Python object handed to `add`/`remove`: a class that
subclasses `FixtureLoader`, a class that does not, or a non-class value. -/
inductive PyObject where
  | loaderCls (cls : Loader)
  | nonLoaderCls (name : String)
  | nonClass (descr : String)
deriving DecidableEq, Repr

/-- Model of `_is_loader(obj)`. -/
def is_loader : PyObject → Bool
  | PyObject.loaderCls _ => true
  | PyObject.nonLoaderCls _ => false
  | PyObject.nonClass _ => false

/-- Model of `add(cls)` over the custom-loader list: raise `ValueError`
on a non-loader (list unchanged), otherwise append the class. -/
def add (custom : List Loader) (obj : PyObject) : List Loader × Option String :=
  if ¬ is_loader obj then (custom, some "Unsupported loader class.")
  else
    match obj with
    | PyObject.loaderCls cls => (custom ++ [cls], none)
    | _ => (custom, some "Unsupported loader class.")

/-- Model of Python `list.remove(x)`: drop the first occurrence, or raise
`ValueError` (list unchanged) when `x` is absent. -/
def list_remove (xs : List Loader) (cls : Loader) : List Loader × Option String :=
  match xs with
  | [] => ([], some "list.remove(x): x not in list")
  | y :: ys =>
    if y = cls then (ys, none)
    else ((y :: (list_remove ys cls).1), (list_remove ys cls).2)

/-- Model of `remove(cls)` over the custom-loader list: return silently on
a non-loader, otherwise `_custom_loaders.remove(cls)`. -/
def remove (custom : List Loader) (obj : PyObject) : List Loader × Option String :=
  if ¬ is_loader obj then (custom, none)
  else
    match obj with
    | PyObject.loaderCls cls => list_remove custom cls
    | _ => (custom, none)

/-- Model of `_get_loaders_cls()`: start from the custom loaders, then
append every class of `FixtureLoader.__subclasses__()` (the discovery
list, passed as `subclasses`) that is not among the custom loaders. -/
def _get_loaders_cls (custom subclasses : List Loader) : List Loader :=
  subclasses.foldl
    (fun acc cls => if custom.contains cls then acc else acc ++ [cls])
    ([] ++ custom)

/-! ### Date/time coercion (`dtparse`, `_datetime_parser`, lines 28-31 and 62-68)

`dtparse` is the fallback defined by the module itself when the optional
third-party dateutil library is absent (the claims cite this fallback):
`datetime.strptime(dtstring, %Y-%m-%d)`.  CPython `_strptime` compiles
that format to the anchored pattern
`(?P<Y>dddd)-(?P<m>1[0-2]|0[1-9]|[1-9])-(?P<d>3[01]|[12]d|0[1-9]|[1-9])`
and requires the whole string to be consumed; `datetime(year, month, day)`
then rejects year 0 and days beyond the month's length.  The result is
midnight on the parsed date. -/

/-- Numeric value of a digit character. -/
def digitVal (c : Char) : Nat := c.toNat - '0'.toNat

/-- Year field of the strptime pattern: exactly four digits. -/
def parseYear : List Char → Option (Nat × List Char)
  | c1 :: c2 :: c3 :: c4 :: rest =>
    if c1.isDigit ∧ c2.isDigit ∧ c3.isDigit ∧ c4.isDigit then
      some (1000 * digitVal c1 + 100 * digitVal c2 + 10 * digitVal c3 + digitVal c4, rest)
    else none
  | _ => none

/-- Month field of the strptime pattern: `1[0-2]`, `0[1-9]` or `[1-9]`,
tried in that order. -/
def parseMonth : List Char → Option (Nat × List Char)
  | [] => none
  | [c1] => if '1' ≤ c1 ∧ c1 ≤ '9' then some (digitVal c1, []) else none
  | c1 :: c2 :: rest =>
    if c1 = '1' ∧ ('0' ≤ c2 ∧ c2 ≤ '2') then some (10 + digitVal c2, rest)
    else if c1 = '0' ∧ ('1' ≤ c2 ∧ c2 ≤ '9') then some (digitVal c2, rest)
    else if '1' ≤ c1 ∧ c1 ≤ '9' then some (digitVal c1, c2 :: rest)
    else none

/-- Day field of the strptime pattern: `3[01]`, `[12][0-9]`, `0[1-9]` or
`[1-9]`, tried in that order. -/
def parseDay : List Char → Option (Nat × List Char)
  | [] => none
  | [c1] => if '1' ≤ c1 ∧ c1 ≤ '9' then some (digitVal c1, []) else none
  | c1 :: c2 :: rest =>
    if c1 = '3' ∧ (c2 = '0' ∨ c2 = '1') then some (30 + digitVal c2, rest)
    else if ('1' ≤ c1 ∧ c1 ≤ '2') ∧ c2.isDigit then some (10 * digitVal c1 + digitVal c2, rest)
    else if c1 = '0' ∧ ('1' ≤ c2 ∧ c2 ≤ '9') then some (digitVal c2, rest)
    else if '1' ≤ c1 ∧ c1 ≤ '9' then some (digitVal c1, c2 :: rest)
    else none

/-- The whole strptime match for format `%Y-%m-%d`: year, `-`, month,
`-`, day, end of string. -/
def strptimeYMD (s : String) : Option (Nat × Nat × Nat) :=
  match parseYear s.toList with
  | none => none
  | some (y, r1) =>
    match r1 with
    | '-' :: r2 =>
      match parseMonth r2 with
      | none => none
      | some (m, r3) =>
        match r3 with
        | '-' :: r4 =>
          match parseDay r4 with
          | none => none
          | some (d, r5) => if r5 = [] then some (y, m, d) else none
        | _ => none
    | _ => none

/-- Gregorian leap-year rule used by `datetime`. -/
def isLeapYear (y : Nat) : Bool := y % 4 = 0 ∧ (y % 100 ≠ 0 ∨ y % 400 = 0)

/-- Length of a month as validated by the `datetime` constructor. -/
def daysInMonth (y m : Nat) : Nat :=
  if m = 2 then (if isLeapYear y then 29 else 28)
  else if m = 4 ∨ m = 6 ∨ m = 9 ∨ m = 11 then 30
  else 31

/-- A Python `datetime.datetime` value (date plus time of day). -/
structure PyDatetime where
  year : Nat
  month : Nat
  day : Nat
  hour : Nat
  minute : Nat
  second : Nat
deriving DecidableEq, Repr

/-- Model of the module's fallback `dtparse(dtstring)`:
`datetime.strptime(dtstring, %Y-%m-%d)`, `none` for a raised exception.
A parsed date-only string yields midnight on that date. -/
def dtparse (s : String) : Option PyDatetime :=
  match strptimeYMD s with
  | none => none
  | some (y, m, d) =>
    if 1 ≤ y ∧ d ≤ daysInMonth y m then some ⟨y, m, d, 0, 0, 0⟩ else none

/-! ### Decoded values and `JSONLoader.load` (lines 57-75) -/

/-- A decoded value: the tree produced by the JSON decoder, whose leaves
may become `datetime` values after coercion.  A mapping is its ordered
list of key/value pairs with pairwise distinct keys. -/
inductive JsonValue where
  | null
  | bool (b : Bool)
  | num (n : Int)
  | str (s : String)
  | datetime (dt : PyDatetime)
  | arr (items : List JsonValue)
  | obj (entries : List (String × JsonValue))

/-- Application of `dtparse` to an arbitrary decoded value: the fallback
parser accepts only strings, raising `TypeError` (here `none`) on any
other value. -/
def dtparseValue : JsonValue → Option PyDatetime
  | JsonValue.str s => dtparse s
  | _ => none

/-- Model of `dct[key] = value` on a decoded mapping: replace the value
at `key`, or append the pair when `key` is absent. -/
def dictSet (dct : List (String × JsonValue)) (key : String) (v : JsonValue) :
    List (String × JsonValue) :=
  match dct with
  | [] => [(key, v)]
  | (k, w) :: rest =>
    if k = key then (key, v) :: rest else (k, w) :: dictSet rest key v

/-- Model of the object hook `_datetime_parser(dct)` (the name here avoids
an underscore clash): iterate over a snapshot of the items; for each pair
evaluate `dtparse(value)` and assign the result on success, leaving the
entry untouched when `dtparse` raises; return the mapping. -/
def _datetime_coercion (dct : List (String × JsonValue)) : List (String × JsonValue) :=
  dct.foldl
    (fun acc kv =>
      match dtparseValue kv.2 with
      | some t => dictSet acc kv.1 (JsonValue.datetime t)
      | none => acc)
    dct

mutual
/-- Model of `json.load(fin, object_hook=hook)` on the decoded document:
the external json library applies the hook to every decoded mapping,
bottom-up, as each object literal is completed. -/
def json_load_with_hook (hook : List (String × JsonValue) → List (String × JsonValue)) :
    JsonValue → JsonValue
  | JsonValue.null => JsonValue.null
  | JsonValue.bool b => JsonValue.bool b
  | JsonValue.num n => JsonValue.num n
  | JsonValue.str s => JsonValue.str s
  | JsonValue.datetime dt => JsonValue.datetime dt
  | JsonValue.arr items => JsonValue.arr (hookList hook items)
  | JsonValue.obj entries => JsonValue.obj (hook (hookEntries hook entries))

/-- Hook application to each element of a decoded array. -/
def hookList (hook : List (String × JsonValue) → List (String × JsonValue)) :
    List JsonValue → List JsonValue
  | [] => []
  | v :: vs => json_load_with_hook hook v :: hookList hook vs

/-- Hook application to each value of a decoded mapping. -/
def hookEntries (hook : List (String × JsonValue) → List (String × JsonValue)) :
    List (String × JsonValue) → List (String × JsonValue)
  | [] => []
  | (k, v) :: kvs => (k, json_load_with_hook hook v) :: hookEntries hook kvs
end

/-- Modelled from the spec: the external configuration collaborator
(`flask_fixtures.config`, not part of the analysed source) supplies one
boolean option controlling date/time coercion, `parse_datetime`
(`FIXTURES_JSON_PARSE_DATETIME`), disabled by default (spec section 6). -/
structure Settings where
  parse_datetime : Bool := false
deriving DecidableEq, Repr

/-- Model of `JSONLoader.load(filename)` on the document tree decoded
from the file by the external json library: with `parse_datetime` set the
decode runs with `object_hook=_datetime_parser`, otherwise the decoded
tree is returned as is. -/
def JSONLoader_load (settings : Settings) (doc : JsonValue) : JsonValue :=
  if settings.parse_datetime then json_load_with_hook _datetime_coercion doc
  else doc

/-- A loader class with an empty `extensions` tuple (used to settle C8). -/
def EmptyExtLoader : Loader := { name := "EmptyExtLoader", extensions := some [] }

/-- A custom loader class for `.csv` fixtures (used to settle C10). -/
def CSVLoader : Loader := { name := "CSVLoader", extensions := some [".csv"] }

/-! ## Helper lemmas -/

/-- Appending under the `_get_loaders_cls` loop is filtering. -/
theorem foldl_append_filter (p : Loader → Bool) (subs : List Loader) :
    ∀ init : List Loader,
      subs.foldl (fun acc cls => if p cls then acc else acc ++ [cls]) init
        = init ++ subs.filter (fun cls => !(p cls)) := by
  induction subs with
  | nil => intro init; simp
  | cons s ss ih =>
    intro init
    by_cases h : p s = true
    · simp [List.foldl, List.filter_cons, h, ih]
    · simp only [Bool.not_eq_true] at h
      simp [List.foldl, List.filter_cons, h, ih]

/-- Custom loaders stay in the enumeration `_get_loaders_cls` produces. -/
theorem mem_get_loaders_of_mem_custom (custom subs : List Loader) (l : Loader)
    (h : l ∈ custom) : l ∈ _get_loaders_cls custom subs := by
  rw [_get_loaders_cls, foldl_append_filter]
  simp [h]

/-- Python `list.remove` raises and leaves the list unchanged when the
element is absent. -/
theorem list_remove_of_not_mem (xs : List Loader) (cls : Loader) (h : cls ∉ xs) :
    list_remove xs cls = (xs, some "list.remove(x): x not in list") := by
  induction xs with
  | nil => rfl
  | cons y ys ih =>
    simp only [List.mem_cons, not_or] at h
    have hne : y ≠ cls := fun hy => h.1 hy.symm
    simp [list_remove, hne, ih h.2]

/-- Python `list.remove` drops exactly the first occurrence. -/
theorem list_remove_first_occurrence (pre post : List Loader) (cls : Loader)
    (h : cls ∉ pre) :
    list_remove (pre ++ cls :: post) cls = (pre ++ post, none) := by
  induction pre with
  | nil => simp [list_remove]
  | cons y ys ih =>
    simp only [List.mem_cons, not_or] at h
    have hne : y ≠ cls := fun hy => h.1 hy.symm
    simp [list_remove, hne, ih h.2]

/-- The outcome of dispatch is decided by the first loader class whose
extensions contain the computed extension. -/
theorem loadAux_snd_eq_find (filename ext : String) (loaders : List Loader) :
    (loadAux filename ext loaders).2 =
      match loaders.find? (fun cls => loaderMatches cls ext) with
      | some cls => LoadOutcome.result cls filename
      | none => LoadOutcome.error (errMsg filename) := by
  induction loaders with
  | nil => rfl
  | cons cls rest ih =>
    cases hext : cls.extensions with
    | none =>
      have hm : loaderMatches cls ext = false := by simp [loaderMatches, hext]
      rw [@List.find?_cons_of_neg _ (fun c => loaderMatches c ext) cls rest (by simp [hm])]
      simpa [loadAux, hext] using ih
    | some exts =>
      by_cases hc : ext ∈ exts
      · have hm : loaderMatches cls ext = true := by simp [loaderMatches, hext, hc]
        rw [@List.find?_cons_of_pos _ (fun c => loaderMatches c ext) cls rest hm]
        simp [loadAux, hext, hc]
      · have hm : loaderMatches cls ext = false := by simp [loaderMatches, hext, hc]
        rw [@List.find?_cons_of_neg _ (fun c => loaderMatches c ext) cls rest (by simp [hm])]
        simpa [loadAux, hext, hc] using ih

/-- A loader whose class lacks extensions, or declares an empty tuple,
does not change the outcome of dispatch. -/
theorem loadAux_skip (filename ext : String) (pre post : List Loader) (l : Loader)
    (hl : l.extensions = none ∨ l.extensions = some []) :
    (loadAux filename ext (pre ++ l :: post)).2 = (loadAux filename ext (pre ++ post)).2 := by
  induction pre with
  | nil =>
    rcases hl with h | h
    · simp [loadAux, h]
    · simp [loadAux, h]
  | cons p ps ih =>
    cases hp : p.extensions with
    | none => simpa [loadAux, hp] using ih
    | some exts =>
      by_cases hc : ext ∈ exts
      · simp [loadAux, hp, hc]
      · simpa [loadAux, hp, hc] using ih

/-- A loader class with an empty extensions tuple changes the logged
warnings nowhere. -/
theorem loadAux_skip_warnings (filename ext : String) (pre post : List Loader)
    (l : Loader) (hl : l.extensions = some []) :
    (loadAux filename ext (pre ++ l :: post)).1 = (loadAux filename ext (pre ++ post)).1 := by
  induction pre with
  | nil => simp [loadAux, hl]
  | cons p ps ih =>
    cases hp : p.extensions with
    | none => simpa [loadAux, hp] using ih
    | some exts =>
      by_cases hc : ext ∈ exts
      · simp [loadAux, hp, hc]
      · simpa [loadAux, hp, hc] using ih

/-- A loader class without an `extensions` attribute is warned about when
dispatch reaches it. -/
theorem loadAux_warns (filename ext : String) (pre post : List Loader) (l : Loader)
    (hl : l.extensions = none)
    (hpre : ∀ c ∈ pre, loaderMatches c ext = false) :
    warnMsg l ∈ (loadAux filename ext (pre ++ l :: post)).1 := by
  induction pre with
  | nil => simp [loadAux, hl]
  | cons p ps ih =>
    have hp := hpre p (by simp)
    have hrest : ∀ c ∈ ps, loaderMatches c ext = false := fun c hc => hpre c (by simp [hc])
    cases hpe : p.extensions with
    | none =>
      simp only [List.cons_append, loadAux, hpe, List.mem_cons]
      exact Or.inr (ih hrest)
    | some exts =>
      have hcf : ext ∉ exts := by
        intro hmem
        rw [show loaderMatches p ext = true by simp [loaderMatches, hpe, hmem]] at hp
        exact absurd hp (by simp)
      simpa [loadAux, hpe, hcf] using ih hrest

/-- Only a loader class with a matching extension ever receives the
`load` call. -/
theorem load_result_matches (loaders : List Loader) (filename : String) (cls : Loader)
    (fn : String) (h : (load loaders filename).2 = LoadOutcome.result cls fn) :
    loaderMatches cls (fileExtension filename) = true := by
  rw [load, loadAux_snd_eq_find] at h
  cases hf : loaders.find? (fun c => loaderMatches c (fileExtension filename)) with
  | none => rw [hf] at h; exact absurd h (by simp)
  | some c =>
    rw [hf] at h
    have hc := List.find?_some hf
    injection h with h1 h2
    rw [h1] at hc
    exact hc

/-- Dispatch succeeds whenever some listed loader matches. -/
theorem load_result_of_mem (loaders : List Loader) (filename : String) (l : Loader)
    (hmem : l ∈ loaders) (hm : loaderMatches l (fileExtension filename) = true) :
    ∃ cls, (load loaders filename).2 = LoadOutcome.result cls filename := by
  rw [load, loadAux_snd_eq_find]
  cases hf : loaders.find? (fun c => loaderMatches c (fileExtension filename)) with
  | some c => exact ⟨c, rfl⟩
  | none => exact absurd hm (by simpa using List.find?_eq_none.1 hf l hmem)





/-! ## Claim theorems -/

/-- C1: for every filename, `load(filename)` computes the file's
extension via `os.path.splitext`, walks the loader classes in order,
skips (without matching) every class lacking a usable extension
declaration, and returns the result of `cls().load(filename)` for the
first class whose extension set contains the computed extension; once a
class matches, no later class is consulted, and with no match the
unsupported-format error is raised (first-match-wins). -/
theorem c1_dispatch_first_match_wins {α : Type} (impl : Loader → String → α)
    (loaders : List Loader) (filename : String) :
    runOutcome impl (load loaders filename).2 =
      match loaders.find? (fun cls => loaderMatches cls (fileExtension filename)) with
      | some cls => Except.ok (impl cls filename)
      | none => Except.error (errMsg filename) := by
  rw [load, loadAux_snd_eq_find]
  cases loaders.find? (fun cls => loaderMatches cls (fileExtension filename)) <;> rfl

/-- C2: when no listed loader's extension set contains the computed
extension, `load(filename)` raises an error whose message names the
filename and states the format is unsupported; no value is returned. -/
theorem c2_unsupported_format_error (loaders : List Loader) (filename : String)
    (h : ∀ cls ∈ loaders, loaderMatches cls (fileExtension filename) = false) :
    (load loaders filename).2 = LoadOutcome.error (errMsg filename)
    ∧ errMsg filename
        = "Could not load fixture " ++ filename ++ ". Unsupported file format." := by
  refine ⟨?_, rfl⟩
  rw [load, loadAux_snd_eq_find]
  have hnone : loaders.find? (fun cls => loaderMatches cls (fileExtension filename))
      = none := by
    apply List.find?_eq_none.2
    intro x hx
    simp [h x hx]
  rw [hnone]

/-- Witness for C2 at the built-in loaders and a `.txt` fixture. -/
theorem c2_unsupported_format_error_witness :
    (load [JSONLoader, YAMLLoader] "data.txt").2 = LoadOutcome.error (errMsg "data.txt")
    ∧ errMsg "data.txt"
        = "Could not load fixture " ++ "data.txt" ++ ". Unsupported file format." :=
  c2_unsupported_format_error [JSONLoader, YAMLLoader] "data.txt" (by decide)

/-- C4: `add` with an object that is not a loader class raises the
`ValueError` and leaves the custom-loader list, hence the enumeration
`_get_loaders_cls` produces, unchanged. -/
theorem c4_invalid_registration (custom subclasses : List Loader) (obj : PyObject)
    (h : is_loader obj = false) :
    add custom obj = (custom, some "Unsupported loader class.")
    ∧ _get_loaders_cls (add custom obj).1 subclasses
        = _get_loaders_cls custom subclasses := by
  constructor
  · simp [add, h]
  · simp [add, h]

/-- Witness for C4 at a non-class object and the built-in discovery list. -/
theorem c4_invalid_registration_witness :
    add [] (PyObject.nonClass "a number") = ([], some "Unsupported loader class.")
    ∧ _get_loaders_cls (add [] (PyObject.nonClass "a number")).1 [JSONLoader, YAMLLoader]
        = _get_loaders_cls [] [JSONLoader, YAMLLoader] :=
  c4_invalid_registration [] [JSONLoader, YAMLLoader] (PyObject.nonClass "a number") rfl

/-- C5 counterexample: `remove` with a valid loader class that was never
registered does not return normally - `_custom_loaders.remove(cls)`
raises `ValueError`, against the claim that it is always a no-op. -/
theorem c5_counterexample :
    is_loader (PyObject.loaderCls JSONLoader) = true
    ∧ remove [] (PyObject.loaderCls JSONLoader)
        = ([], some "list.remove(x): x not in list") :=
  ⟨rfl, rfl⟩

/-- C5 (amended): `remove` is a no-op only for objects that are not
loader classes; for a registered loader class it drops the first
occurrence and returns normally, while for a valid loader class that is
not currently registered it raises `ValueError` (Python `list.remove`)
and leaves the registry unchanged. -/
theorem c5_unregister_behaviour (custom : List Loader) (obj : PyObject) :
    (is_loader obj = false → remove custom obj = (custom, none))
    ∧ (∀ cls, obj = PyObject.loaderCls cls → cls ∉ custom →
        remove custom obj = (custom, some "list.remove(x): x not in list"))
    ∧ (∀ cls pre post, obj = PyObject.loaderCls cls → custom = pre ++ cls :: post →
        cls ∉ pre → remove custom obj = (pre ++ post, none)) := by
  refine ⟨?_, ?_, ?_⟩
  · intro h; simp [remove, h]
  · rintro cls rfl h
    simpa [remove, is_loader] using list_remove_of_not_mem custom cls h
  · rintro cls pre post rfl rfl h
    simpa [remove, is_loader] using list_remove_first_occurrence pre post cls h

/-- Witness for the amended C5: removing a registered loader class drops it. -/
theorem c5_unregister_behaviour_witness :
    remove [JSONLoader, YAMLLoader] (PyObject.loaderCls JSONLoader) = ([YAMLLoader], none) := by
  have h := (c5_unregister_behaviour [JSONLoader, YAMLLoader]
      (PyObject.loaderCls JSONLoader)).2.2 JSONLoader [] [YAMLLoader] rfl rfl (by simp)
  simpa using h

/-- C6: the enumeration used by dispatch lists every custom loader first,
in registration order, followed by exactly those discovered subclasses
not already among the custom loaders, in their relative order. -/
theorem c6_loader_enumeration (custom subclasses : List Loader) :
    _get_loaders_cls custom subclasses
      = custom ++ subclasses.filter (fun cls => !(custom.contains cls)) := by
  simpa [_get_loaders_cls]
    using foldl_append_filter (fun cls => custom.contains cls) subclasses ([] ++ custom)

/-- C8 counterexample: a loader class declaring an empty extension tuple
is skipped (the built-in JSON loader receives the call) but no warning at
all is logged, against the claim that the condition is flagged with a
logged warning. -/
theorem c8_counterexample :
    EmptyExtLoader.extensions = some []
    ∧ (load [EmptyExtLoader, JSONLoader] "x.json").2
        = LoadOutcome.result JSONLoader "x.json"
    ∧ (load [EmptyExtLoader, JSONLoader] "x.json").1 = [] := by
  refine ⟨rfl, ?_, ?_⟩ <;> rfl

/-- C8 (amended): a loader class without an `extensions` attribute is
skipped with a logged warning when dispatch reaches it, while one with an
empty extension set is skipped silently; in neither case does the class
receive a `load` call, and dispatch continues over the remaining loaders
exactly as if the class were absent, raising no error on its account. -/
theorem c8_misconfigured_loader_skipped (filename : String) (pre post : List Loader)
    (l : Loader) (hl : l.extensions = none ∨ l.extensions = some []) :
    (load (pre ++ l :: post) filename).2 = (load (pre ++ post) filename).2
    ∧ (load (pre ++ l :: post) filename).2 ≠ LoadOutcome.result l filename
    ∧ (l.extensions = some [] →
        (load (pre ++ l :: post) filename).1 = (load (pre ++ post) filename).1)
    ∧ (l.extensions = none →
        (∀ c ∈ pre, loaderMatches c (fileExtension filename) = false) →
        warnMsg l ∈ (load (pre ++ l :: post) filename).1) := by
  refine ⟨loadAux_skip _ _ _ _ _ hl, ?_, ?_, ?_⟩
  · intro hres
    have hm := load_result_matches _ _ _ _ hres
    rcases hl with h | h <;> simp [loaderMatches, h] at hm
  · intro h
    exact loadAux_skip_warnings _ _ _ _ _ h
  · intro h hpre
    exact loadAux_warns _ _ _ _ _ h hpre

/-- Witness for the amended C8: the empty-extensions loader is invisible
to the dispatch outcome. -/
theorem c8_misconfigured_loader_skipped_witness :
    (load ([] ++ EmptyExtLoader :: [JSONLoader]) "x.json").2
      = (load ([] ++ [JSONLoader]) "x.json").2 :=
  (c8_misconfigured_loader_skipped "x.json" [] [JSONLoader] EmptyExtLoader (Or.inr rfl)).1

/-- C10: registering an already-registered loader class appends a second
occurrence; one `remove` then drops only the first occurrence, returns
normally, and leaves the class registered and reachable through the
dispatch enumeration - a matching filename still dispatches to a loader. -/
theorem c10_register_not_idempotent (pre post subs : List Loader) (l : Loader)
    (f : String) (hpre : l ∉ pre)
    (hmatch : loaderMatches l (fileExtension f) = true) :
    add (pre ++ l :: post) (PyObject.loaderCls l) = ((pre ++ l :: post) ++ [l], none)
    ∧ ((pre ++ l :: post) ++ [l]).count l = (pre ++ l :: post).count l + 1
    ∧ remove ((pre ++ l :: post) ++ [l]) (PyObject.loaderCls l)
        = (pre ++ (post ++ [l]), none)
    ∧ l ∈ pre ++ (post ++ [l])
    ∧ l ∈ _get_loaders_cls (pre ++ (post ++ [l])) subs
    ∧ ∃ cls, (load (_get_loaders_cls (pre ++ (post ++ [l])) subs) f).2
        = LoadOutcome.result cls f := by
  have hmem : l ∈ pre ++ (post ++ [l]) := by simp
  have hmem2 : l ∈ _get_loaders_cls (pre ++ (post ++ [l])) subs :=
    mem_get_loaders_of_mem_custom _ subs l hmem
  refine ⟨by simp [add, is_loader], by simp; omega, ?_, hmem, hmem2, ?_⟩
  · have heq : (pre ++ l :: post) ++ [l] = pre ++ l :: (post ++ [l]) := by simp
    rw [heq]
    simpa [remove, is_loader] using list_remove_first_occurrence pre (post ++ [l]) l hpre
  · exact load_result_of_mem _ f l hmem2 hmatch

/-- Witness for C10: the csv loader registered twice survives one removal. -/
theorem c10_register_not_idempotent_witness :
    remove (([] ++ CSVLoader :: []) ++ [CSVLoader]) (PyObject.loaderCls CSVLoader)
      = ([] ++ ([] ++ [CSVLoader]), none) :=
  (c10_register_not_idempotent [] [] [JSONLoader, YAMLLoader] CSVLoader "a.csv"
    (by simp) (by decide)).2.2.1

/-! ## Date/time coercion lemmas (C3, C7) -/

/-- The per-entry effect the spec describes: replace a value that parses
as a date/time string by the parsed timestamp, leave it unchanged
otherwise. -/
def coerceEntry (kv : String × JsonValue) : String × JsonValue :=
  match dtparseValue kv.2 with
  | some t => (kv.1, JsonValue.datetime t)
  | none => kv

/-- The coercion of an entry keeps its key. -/
theorem coerceEntry_fst (kv : String × JsonValue) : (coerceEntry kv).1 = kv.1 := by
  cases h : dtparseValue kv.2 <;> simp [coerceEntry, h]

/-- The update step of the coercion loop. -/
def coerceStep (acc : List (String × JsonValue)) (kv : String × JsonValue) :
    List (String × JsonValue) :=
  match dtparseValue kv.2 with
  | some t => dictSet acc kv.1 (JsonValue.datetime t)
  | none => acc

/-- `_datetime_coercion` is the fold of `coerceStep` over a snapshot of
the items. -/
theorem datetime_coercion_eq_foldl (dct : List (String × JsonValue)) :
    _datetime_coercion dct = dct.foldl coerceStep dct := rfl

/-- Setting a key absent from the head leaves the head in place. -/
theorem dictSet_cons_of_ne (h : String × JsonValue) (rest : List (String × JsonValue))
    (key : String) (v : JsonValue) (hk : key ≠ h.1) :
    dictSet (h :: rest) key v = h :: dictSet rest key v := by
  obtain ⟨k, w⟩ := h
  simp only at hk
  have hne : ¬ (k = key) := fun hh => hk hh.symm
  simp [dictSet, hne]

/-- The coercion loop never touches an accumulator head whose key occurs
in none of the remaining items. -/
theorem foldl_coerceStep_cons (items : List (String × JsonValue)) :
    ∀ (h : String × JsonValue) (acc : List (String × JsonValue)),
      (∀ kv ∈ items, kv.1 ≠ h.1) →
      items.foldl coerceStep (h :: acc) = h :: items.foldl coerceStep acc := by
  induction items with
  | nil => intro h acc _; rfl
  | cons kv rest ih =>
    intro h acc hk
    have hk0 : kv.1 ≠ h.1 := hk kv (by simp)
    have hkrest : ∀ kv2 ∈ rest, kv2.1 ≠ h.1 := fun kv2 hm => hk kv2 (by simp [hm])
    cases hdt : dtparseValue kv.2 with
    | none => simpa [List.foldl, coerceStep, hdt] using ih h acc hkrest
    | some t =>
      have : coerceStep (h :: acc) kv = h :: coerceStep acc kv := by
        simp [coerceStep, hdt, dictSet_cons_of_ne h acc kv.1 _ hk0]
      simpa [List.foldl, this] using ih h (coerceStep acc kv) hkrest

/-- On a mapping (pairwise distinct keys), the coercion loop acts
entry-wise. -/
theorem datetime_coercion_eq_map (dct : List (String × JsonValue))
    (h : (dct.map Prod.fst).Nodup) :
    _datetime_coercion dct = dct.map coerceEntry := by
  rw [datetime_coercion_eq_foldl]
  induction dct with
  | nil => rfl
  | cons kv rest ih =>
    rw [List.map_cons, List.nodup_cons] at h
    obtain ⟨hkey, hrest⟩ := h
    have hstep : coerceStep (kv :: rest) kv = coerceEntry kv :: rest := by
      obtain ⟨k, w⟩ := kv
      cases hdt : dtparseValue w with
      | none => simp [coerceStep, coerceEntry, hdt]
      | some t => simp [coerceStep, coerceEntry, hdt, dictSet]
    have hne : ∀ kv2 ∈ rest, kv2.1 ≠ (coerceEntry kv).1 := by
      intro kv2 hm
      rw [coerceEntry_fst]
      intro hcontra
      have hmem : kv2.1 ∈ rest.map Prod.fst := List.mem_map_of_mem Prod.fst hm
      rw [hcontra] at hmem
      exact hkey hmem
    calc (kv :: rest).foldl coerceStep (kv :: rest)
        = rest.foldl coerceStep (coerceEntry kv :: rest) := by
          simp [List.foldl, hstep]
      _ = coerceEntry kv :: rest.foldl coerceStep rest :=
          foldl_coerceStep_cons rest (coerceEntry kv) rest hne
      _ = coerceEntry kv :: rest.map coerceEntry := by rw [ih hrest]
      _ = (kv :: rest).map coerceEntry := rfl

/-- C3: the coercion pass is total (it never raises): on a decoded
mapping it replaces exactly those values that `dtparse` accepts by the
parsed timestamp, leaves every other entry unchanged, keeps every key,
and always returns the mapping; under the fallback parser a strict
`YYYY-MM-DD` string parses to midnight on that date, while a non-date
string is silently left alone. -/
theorem c3_datetime_coercion_total (dct : List (String × JsonValue))
    (h : (dct.map Prod.fst).Nodup) :
    _datetime_coercion dct = dct.map coerceEntry
    ∧ (_datetime_coercion dct).map Prod.fst = dct.map Prod.fst
    ∧ dtparse "2024-01-15" = some ⟨2024, 1, 15, 0, 0, 0⟩
    ∧ dtparse "2024 report" = none := by
  have hmap := datetime_coercion_eq_map dct h
  refine ⟨hmap, ?_, by decide, by decide⟩
  rw [hmap, List.map_map]
  have : Prod.fst ∘ coerceEntry = (Prod.fst :
      String × JsonValue → String) := by
    funext kv
    exact coerceEntry_fst kv
  rw [this]

/-- Witness for C3 at a mapping holding one date string and one
non-date string. -/
theorem c3_datetime_coercion_total_witness :
    _datetime_coercion
        [("created_at", JsonValue.str "2024-01-15"), ("name", JsonValue.str "2024 report")]
      = [("created_at", JsonValue.datetime ⟨2024, 1, 15, 0, 0, 0⟩),
         ("name", JsonValue.str "2024 report")] := by
  rw [(c3_datetime_coercion_total
    [("created_at", JsonValue.str "2024-01-15"), ("name", JsonValue.str "2024 report")]
    (by decide)).1]
  rfl

/-- C7: with `parse_datetime` disabled - as it is under the default
settings - the JSON loader returns the decoded document tree unchanged,
so encoding a structure to JSON and loading it yields a structurally
equal value and no mapping undergoes date/time coercion. -/
theorem c7_roundtrip_identity (settings : Settings) (doc : JsonValue)
    (h : settings.parse_datetime = false) :
    JSONLoader_load settings doc = doc
    ∧ JSONLoader_load {} doc = doc := by
  constructor
  · simp [JSONLoader_load, h]
  · simp [JSONLoader_load, Settings.parse_datetime]

/-- Witness for C7 at the default settings and a one-entry mapping. -/
theorem c7_roundtrip_identity_witness :
    JSONLoader_load {} (JsonValue.obj [("created_at", JsonValue.str "2024-01-15")])
      = JsonValue.obj [("created_at", JsonValue.str "2024-01-15")]
    ∧ JSONLoader_load {} (JsonValue.obj [("created_at", JsonValue.str "2024-01-15")])
      = JsonValue.obj [("created_at", JsonValue.str "2024-01-15")] :=
  c7_roundtrip_identity {} (JsonValue.obj [("created_at", JsonValue.str "2024-01-15")]) rfl

/-! ## Spec-side description of the computed extension (C9) -/

/-- Base name of a path: the part after the last separator. -/
def afterLastSep : List Char → List Char
  | [] => []
  | x :: xs => if '/' ∈ xs then afterLastSep xs else if x = '/' then xs else x :: xs

/-- The claim's description, as written: the substring from the last `.`
of the base name, inclusive (empty when the base name has no dot). -/
def claimedExt (cs : List Char) : List Char :=
  match rfindIdx? '.' (afterLastSep cs) with
  | some j => (afterLastSep cs).drop j
  | none => []

/-- The amended description: the substring from the last `.` of the base
name when some earlier character of the base name is not itself a dot,
and empty otherwise (so a dotfile has no extension). -/
def specExtAmended (cs : List Char) : List Char :=
  match rfindIdx? '.' (afterLastSep cs) with
  | some j =>
    if ((afterLastSep cs).take j).any (fun ch => ch != '.') then
      (afterLastSep cs).drop j
    else []
  | none => []

/-- `rfind` over an appended list, hit in the second part. -/
theorem rfindIdx_append_of_some (c : Char) (xs : List Char) {ys : List Char} {j : Nat}
    (h : rfindIdx? c ys = some j) :
    rfindIdx? c (xs ++ ys) = some (xs.length + j) := by
  induction xs with
  | nil => simp [h]
  | cons x xs ih =>
    simp only [List.cons_append, rfindIdx?, List.append_eq, ih, List.length_cons]
    congr 1
    omega

/-- `rfind` over an appended list, miss in the second part. -/
theorem rfindIdx_append_of_none (c : Char) (xs : List Char) {ys : List Char}
    (h : rfindIdx? c ys = none) :
    rfindIdx? c (xs ++ ys) = rfindIdx? c xs := by
  induction xs with
  | nil => rw [List.nil_append, h]; rfl
  | cons x xs ih =>
    simp only [List.cons_append, rfindIdx?, List.append_eq, ih]

/-- A found index lies inside the list. -/
theorem rfindIdx_lt_length (c : Char) (cs : List Char) :
    ∀ j, rfindIdx? c cs = some j → j < cs.length := by
  induction cs with
  | nil => intro j h; simp [rfindIdx?] at h
  | cons x xs ih =>
    intro j h
    simp only [rfindIdx?] at h
    cases hxs : rfindIdx? c xs with
    | some i =>
      rw [hxs] at h
      injection h with h
      subst h
      exact Nat.succ_lt_succ (ih i hxs)
    | none =>
      rw [hxs] at h
      by_cases hx : x = c
      · rw [if_pos hx] at h
        injection h with h
        subst h
        simp
      · rw [if_neg hx] at h
        cases h

/-- `rfind` misses exactly when the character is absent. -/
theorem rfindIdx_eq_none_iff (c : Char) (cs : List Char) :
    rfindIdx? c cs = none ↔ c ∉ cs := by
  induction cs with
  | nil => simp [rfindIdx?]
  | cons x xs ih =>
    simp only [rfindIdx?]
    cases hxs : rfindIdx? c xs with
    | some i =>
      have hmem : c ∈ xs := by
        by_contra hmem
        rw [ih.mpr hmem] at hxs
        cases hxs
      simp [hmem]
    | none =>
      have hnot : c ∉ xs := ih.mp hxs
      by_cases hx : x = c
      · simp [hx]
      · have hcx : ¬ c = x := fun hc => hx hc.symm
        simp [hx, hnot, hcx]

/-- A path without separators is its own base name. -/
theorem afterLastSep_of_not_mem (cs : List Char) (h : '/' ∉ cs) :
    afterLastSep cs = cs := by
  cases cs with
  | nil => rfl
  | cons x xs =>
    simp only [List.mem_cons, not_or] at h
    have hx : ¬ x = '/' := fun hx => h.1 hx.symm
    simp [afterLastSep, h.2, hx]

/-- The base name after the last separator. -/
theorem afterLastSep_append (xs ys : List Char) (h : '/' ∉ ys) :
    afterLastSep (xs ++ '/' :: ys) = ys := by
  induction xs with
  | nil => simp [afterLastSep, h]
  | cons x xs ih =>
    have hmem : '/' ∈ xs ++ '/' :: ys := by simp
    simp [afterLastSep, hmem, ih]

/-- Every path containing a separator splits at its last separator. -/
theorem exists_sep_decomp (cs : List Char) (h : '/' ∈ cs) :
    ∃ xs ys, cs = xs ++ '/' :: ys ∧ '/' ∉ ys := by
  induction cs with
  | nil => cases h
  | cons x xs ih =>
    by_cases hxs : '/' ∈ xs
    · obtain ⟨as, bs, heq, hb⟩ := ih hxs
      exact ⟨x :: as, bs, by rw [heq]; rfl, hb⟩
    · have hx : x = '/' := by
        rcases List.mem_cons.mp h with h1 | h2
        · exact h1.symm
        · exact absurd h2 hxs
      exact ⟨[], xs, by simp [hx], hxs⟩

/-- Dropping the prefix up to and including the last separator. -/
theorem drop_after_sep (xs ys : List Char) :
    (xs ++ '/' :: ys).drop (xs.length + 1) = ys := by
  have heq : xs ++ '/' :: ys = (xs ++ ['/']) ++ ys := by simp
  have hlen : (xs ++ ['/']).length = xs.length + 1 := by simp
  rw [heq, ← hlen, List.drop_left]

/-- Dropping up to a dot inside the base name. -/
theorem drop_after_dot (xs ys : List Char) (i : Nat) :
    (xs ++ '/' :: ys).drop (xs.length + (i + 1)) = ys.drop i := by
  rw [show xs.length + (i + 1) = (xs.length + 1) + i by omega]
  rw [← List.drop_drop, drop_after_sep]

/-- The extension `os.path.splitext` computes equals the amended
description: the substring from the base name's last dot, unless every
earlier character of the base name is itself a dot. -/
theorem splitextExt_eq_specExtAmended (cs : List Char) :
    splitextExt cs = specExtAmended cs := by
  by_cases hsep : '/' ∈ cs
  · obtain ⟨xs, ys, rfl, hys⟩ := exists_sep_decomp cs hsep
    have hbase : afterLastSep (xs ++ '/' :: ys) = ys := afterLastSep_append xs ys hys
    have hsub : rfindIdx? '/' ('/' :: ys) = some 0 := by
      simp only [rfindIdx?]
      rw [(rfindIdx_eq_none_iff '/' ys).mpr hys]
      simp
    have hsepidx : rfindIdx? '/' (xs ++ '/' :: ys) = some xs.length := by
      rw [rfindIdx_append_of_some '/' xs hsub]
      simp
    cases hdot : rfindIdx? '.' ys with
    | some i =>
      have hd1 : rfindIdx? '.' ('/' :: ys) = some (i + 1) := by
        simp only [rfindIdx?]
        rw [hdot]
      have hdotidx : rfindIdx? '.' (xs ++ '/' :: ys) = some (xs.length + (i + 1)) :=
        rfindIdx_append_of_some '.' xs hd1
      have hleft : splitextExt (xs ++ '/' :: ys)
          = (if (ys.take i).any (fun ch => ch != '.') then ys.drop i else []) := by
        simp only [splitextExt, hsepidx, hdotidx, drop_after_sep, drop_after_dot]
        rw [if_pos (by omega : xs.length + 1 ≤ xs.length + (i + 1))]
        rw [show xs.length + (i + 1) - (xs.length + 1) = i from by omega]
      have hright : specExtAmended (xs ++ '/' :: ys)
          = (if (ys.take i).any (fun ch => ch != '.') then ys.drop i else []) := by
        simp only [specExtAmended, hbase, hdot]
      rw [hleft, hright]
    | none =>
      have hd1 : rfindIdx? '.' ('/' :: ys) = none := by
        simp only [rfindIdx?]
        rw [hdot]
        simp
      have hdotidx : rfindIdx? '.' (xs ++ '/' :: ys) = rfindIdx? '.' xs :=
        rfindIdx_append_of_none '.' xs hd1
      have hright : specExtAmended (xs ++ '/' :: ys) = [] := by
        simp only [specExtAmended, hbase, hdot]
      cases hx : rfindIdx? '.' xs with
      | none =>
        have hleft : splitextExt (xs ++ '/' :: ys) = [] := by
          simp only [splitextExt, hdotidx, hx]
        rw [hleft, hright]
      | some j =>
        have hj : j < xs.length := rfindIdx_lt_length '.' xs j hx
        have hleft : splitextExt (xs ++ '/' :: ys) = [] := by
          simp only [splitextExt, hdotidx, hx, hsepidx]
          rw [if_neg (by omega : ¬ (xs.length + 1 ≤ j))]
        rw [hleft, hright]
  · have hsepidx : rfindIdx? '/' cs = none := (rfindIdx_eq_none_iff '/' cs).mpr hsep
    have hbase : afterLastSep cs = cs := afterLastSep_of_not_mem cs hsep
    cases hdot : rfindIdx? '.' cs with
    | none => simp only [splitextExt, specExtAmended, hsepidx, hbase, hdot]
    | some j =>
      simp only [splitextExt, specExtAmended, hsepidx, hbase, hdot]
      rw [if_pos (Nat.zero_le j)]
      simp

/-- Matching a declared extension set is plain string membership. -/
theorem loaderMatches_iff_mem (l : Loader) (exts : List String) (ext : String)
    (h : l.extensions = some exts) :
    loaderMatches l ext = true ↔ ext ∈ exts := by
  simp [loaderMatches, h]

/-- C9 counterexample: for the dotfile name `.yml` the substring from the
last dot of the base name is `.yml` itself, an extension the YAML loader
declares, yet `os.path.splitext` computes an empty extension, the loader
does not match, and dispatch raises - against the claimed
if-and-only-if over every filename. -/
theorem c9_counterexample :
    String.mk (claimedExt (String.toList ".yml")) = ".yml"
    ∧ YAMLLoader.extensions = some [".yaml", ".yml"]
    ∧ (".yml" ∈ [".yaml", ".yml"])
    ∧ fileExtension ".yml" = ""
    ∧ loaderMatches YAMLLoader (fileExtension ".yml") = false
    ∧ (load [YAMLLoader] ".yml").2 = LoadOutcome.error (errMsg ".yml") := by
  refine ⟨rfl, rfl, by decide, rfl, rfl, rfl⟩

/-- C9 (amended): dispatch matching is case-sensitive and
character-for-character exact over the extension `os.path.splitext`
computes, and that extension is the substring from the last dot of the
base name (inclusive) exactly when some earlier character of the base
name is not itself a dot - a dotfile such as `.yml` has no extension;
`.YML` does not match a loader declaring `.yml`, and `x.tar.gz` is
matched on `.gz` alone. -/
theorem c9_extension_matching (l : Loader) (exts : List String) (f : String)
    (hl : l.extensions = some exts) :
    (loaderMatches l (fileExtension f) = true ↔ fileExtension f ∈ exts)
    ∧ splitextExt f.toList = specExtAmended f.toList
    ∧ fileExtension "x.tar.gz" = ".gz"
    ∧ fileExtension "a.YML" = ".YML"
    ∧ loaderMatches YAMLLoader (fileExtension "a.YML") = false :=
  ⟨loaderMatches_iff_mem l exts _ hl, splitextExt_eq_specExtAmended _, rfl, rfl, rfl⟩

/-- Witness for the amended C9 at the YAML loader and `x.tar.gz`. -/
theorem c9_extension_matching_witness :
    (loaderMatches YAMLLoader (fileExtension "x.tar.gz") = true
      ↔ fileExtension "x.tar.gz" ∈ [".yaml", ".yml"])
    ∧ splitextExt (String.toList "x.tar.gz") = specExtAmended (String.toList "x.tar.gz")
    ∧ fileExtension "x.tar.gz" = ".gz"
    ∧ fileExtension "a.YML" = ".YML"
    ∧ loaderMatches YAMLLoader (fileExtension "a.YML") = false :=
  c9_extension_matching YAMLLoader [".yaml", ".yml"] "x.tar.gz" rfl
